import Mathlib

/-!
# Verification of the myos heap-allocator subsystem

A shallow embedding of the allocator code of the `myos` kernel
(`src/allocator/mod.rs`, `src/allocator/linked_list.rs`,
`src/allocator/fixed_size_block.rs`) together with theorems settling the
spec claims about it.

Machine integers (`usize`) are modelled as `Nat` with explicit `% 2^64`
where the code can wrap; pointers are addresses (`Nat`), with `0` playing
the role of the null pointer.  In-memory intrusive lists are modelled as
Lean lists of the node addresses (head first), in the order the kernel's
pointer chain would be traversed.
-/

namespace Myos

/-- The number of values of the `usize` type (the code targets x86-64). -/
def USIZE : Nat := 2 ^ 64

/-- `mem::size_of::<Node>()` for the free-list node
`struct Node { size: usize, next: Option<&'static mut Node> }`:
8 bytes for `size` plus 8 for the niche-optimised `next` reference. -/
def sizeOfNode : Nat := 16

/-- `mem::align_of::<Node>()` for the free-list node (x86-64). -/
def alignOfNode : Nat := 8

/-- `allocator::align_up`: `(addr + align - 1) & !(align - 1)`.
The addition is `usize` addition, hence the `% USIZE`; for a power-of-two
`align ≤ 2^64`, the 64-bit complement `!(align - 1)` is `USIZE - align`. -/
def align_up (addr align : Nat) : Nat :=
  ((addr + align - 1) % USIZE) &&& (USIZE - align)

/-- A Rust `Layout`: requested size and alignment.  The Rust type's
invariant (the alignment is a power of two) is carried as a hypothesis
where proofs need it. -/
structure Layout where
  size : Nat
  align : Nat
  deriving DecidableEq, Repr

/-- One free region of the linked-list allocator: the list node
`struct Node { size, next }` is stored at `addr`, the start of the region
it describes.  The `next` chain is modelled by the position in a
`List Node`. -/
structure Node where
  addr : Nat
  size : Nat
  deriving DecidableEq, Repr

/-- `Node::start_addr`. -/
def Node.start_addr (n : Node) : Nat := n.addr

/-- `Node::end_addr`: `start_addr + size` in `usize` arithmetic. -/
def Node.end_addr (n : Node) : Nat := (n.addr + n.size) % USIZE

/-- `AllocFromRegionErr` of `linked_list.rs`. -/
inductive AllocFromRegionErr where
  | AddressOverflow
  | RegionNotBigEnough
  | ExcessCannotFitANode
  deriving DecidableEq, Repr

/-- `LinkedListAllocator::alloc_from_region`: try to place an allocation of
`size` bytes aligned to `align` inside `region`.  `checked_add` returning
`None` is the `AddressOverflow` case. -/
def alloc_from_region (region : Node) (size align : Nat) :
    Except AllocFromRegionErr Nat :=
  let alloc_start := align_up region.start_addr align
  if alloc_start + size < USIZE then
    if alloc_start + size ≤ region.end_addr then
      let excess_size := region.end_addr - (alloc_start + size)
      if 0 < excess_size ∧ excess_size < sizeOfNode then
        .error .ExcessCannotFitANode
      else
        .ok alloc_start
    else
      .error .RegionNotBigEnough
  else
    .error .AddressOverflow

/-- `LinkedListAllocator::find_region`: scan the free list head to tail and
remove the first region that `alloc_from_region` accepts.  Returns the
removed node, the allocation start, and the remaining list (order
preserved). -/
def find_region (nodes : List Node) (size align : Nat) :
    Option (Node × Nat × List Node) :=
  match nodes with
  | [] => none
  | r :: rest =>
    match alloc_from_region r size align with
    | .ok alloc_start => some (r, alloc_start, rest)
    | .error _ =>
      (find_region rest size align).map fun (n, s, l) => (n, s, r :: l)

/-- `LinkedListAllocator::adjust_layout`: raise the alignment to at least
`align_of::<Node>()`, pad the size to a multiple of the (raised) alignment
(`Layout::pad_to_align`), then raise it to at least `size_of::<Node>()`. -/
def adjust_layout (l : Layout) : Nat × Nat :=
  let align := max l.align alignOfNode
  let padded := ((l.size + align - 1) / align) * align
  (max padded sizeOfNode, align)

/-- `LinkedListAllocator::add_free_region`: push a node for `[addr, addr+size)`
onto the front of the free list.  The two `assert!`s guard it; a failed
assertion is a panic, modelled as `none`. -/
def add_free_region (nodes : List Node) (addr size : Nat) :
    Option (List Node) :=
  if sizeOfNode ≤ size ∧ align_up addr alignOfNode = addr then
    some (⟨addr, size⟩ :: nodes)
  else
    none

/-- `GlobalAlloc::alloc` for `Locked<LinkedListAllocator>`: adjust the
layout, find a region first-fit, and re-insert the excess at the region's
end when it is nonzero.  Returns the allocation start (`none` = null) and
the new free list.  (The `checked_add(size).expect` cannot fail here:
`find_region` only succeeds when the sum is below `USIZE`, and the
re-insertion asserts cannot fire, both proved below.) -/
def LinkedListAllocator.alloc (nodes : List Node) (l : Layout) :
    Option Nat × List Node :=
  let size := (adjust_layout l).1
  let align := (adjust_layout l).2
  match find_region nodes size align with
  | none => (none, nodes)
  | some (region, alloc_start, rest) =>
    let alloc_end := alloc_start + size
    let excess_size := region.end_addr - alloc_end
    if 0 < excess_size then
      (some alloc_start, ⟨alloc_end, excess_size⟩ :: rest)
    else
      (some alloc_start, rest)

/-- `GlobalAlloc::dealloc` for `Locked<LinkedListAllocator>`: recompute the
adjusted size and push a free node at `ptr`.  `none` models a panic of the
assertions inside `add_free_region`. -/
def LinkedListAllocator.dealloc (nodes : List Node) (ptr : Nat) (l : Layout) :
    Option (List Node) :=
  let size := (adjust_layout l).1
  add_free_region nodes ptr size

/-! ## Fixed-size-block allocator (`fixed_size_block.rs`) -/

/-- `BlockLayout`: the layout of one size class. -/
structure BlockLayout where
  size : Nat
  align : Nat
  deriving DecidableEq, Repr

/-- The `BLOCK_LAYOUTS` table. -/
def BLOCK_LAYOUTS : List BlockLayout :=
  [⟨8, 8⟩, ⟨16, 16⟩, ⟨32, 32⟩, ⟨64, 64⟩, ⟨128, 128⟩,
   ⟨256, 256⟩, ⟨512, 512⟩, ⟨1024, 1024⟩, ⟨2048, 2048⟩]

/-- `FREE_LISTS_COUNT`. -/
def FREE_LISTS_COUNT : Nat := BLOCK_LAYOUTS.length

/-- `mem::size_of::<Node>()` for the fixed-size-block node
`struct Node { next: Option<&'static mut Node> }` (x86-64). -/
def sizeOfFsbNode : Nat := 8

/-- `mem::align_of::<Node>()` for the fixed-size-block node (x86-64). -/
def alignOfFsbNode : Nat := 8

/-- The external collaborator `linked_list_allocator::Heap` (the fallback
arena), modelled at its interface: `size` is the total heap capacity in
bytes (`Heap::size()`, fixed at `init` and never changed by allocation),
and `firstFit` gives the result of `Heap::allocate_first_fit` for a layout
(`none` = `Err`, i.e. a null result of `fallback_alloc`).  The arena's
internal free structure is external to this repository and abstracted
away; `deallocs` records every pointer-layout pair forwarded to
`Heap::deallocate`, so that forwarding (or its absence) is observable. -/
structure Heap where
  size : Nat
  firstFit : Layout → Option Nat
  deallocs : List (Nat × Layout)

/-- Modelled from the spec: `linked_list_allocator::Heap::empty()`, whose
source is not part of this repository.  The spec's FallbackArena, like the
repository's own free-list allocator, starts with capacity zero and "an
allocator on which `init`/`new` was never called returns null for any
`alloc` call", so the empty arena reports size `0` and satisfies no
request. -/
def Heap.empty : Heap :=
  { size := 0, firstFit := fun _ => none, deallocs := [] }

/-- The `FixedSizeBlockAllocator` state: one intrusive free list of block
addresses per size class (index `i` holds the list headed at
`free_list_heads[i]`), plus the fallback arena. -/
structure FixedSizeBlockAllocator where
  free_list_heads : List (List Nat)
  fallback_allocator : Heap

/-- `FixedSizeBlockAllocator::empty()`. -/
def FixedSizeBlockAllocator.empty : FixedSizeBlockAllocator :=
  { free_list_heads := List.replicate FREE_LISTS_COUNT []
    fallback_allocator := Heap.empty }

/-- `FixedSizeBlockAllocator::free_list_index`: among the classes whose
size is strictly below the fallback heap's capacity (`filter`), the
position of the first one that fits the layout.  Because the table's sizes
are strictly increasing, the `filter` keeps a prefix of the table, so this
position is also an index into `BLOCK_LAYOUTS` (proved below). -/
def free_list_index (heap_size : Nat) (l : Layout) : Option Nat :=
  (BLOCK_LAYOUTS.filter fun block => decide (block.size < heap_size)).findIdx?
    fun block => decide (l.size ≤ block.size ∧ l.align ≤ block.align)

/-- `FixedSizeBlockAllocator::fallback_alloc`: `allocate_first_fit`, null
(`none`) on failure.  The arena's capacity and recorded deallocations are
unchanged by an allocation. -/
def FixedSizeBlockAllocator.fallback_alloc (s : FixedSizeBlockAllocator)
    (l : Layout) : Option Nat × FixedSizeBlockAllocator :=
  (s.fallback_allocator.firstFit l, s)

/-- `FixedSizeBlockAllocator::free_list_alloc`: pop the head of free list
`index`, or ask the fallback arena for a block of exactly the class's
layout when that list is empty.  The leading `assert!(index <
FREE_LISTS_COUNT)` failing is a panic, modelled as `none`. -/
def FixedSizeBlockAllocator.free_list_alloc (s : FixedSizeBlockAllocator)
    (index : Nat) : Option (Option Nat × FixedSizeBlockAllocator) :=
  if index < FREE_LISTS_COUNT then
    match (s.free_list_heads.getD index []) with
    | node :: rest =>
      some (some node,
        { s with free_list_heads := s.free_list_heads.set index rest })
    | [] =>
      let block_layout := BLOCK_LAYOUTS.getD index ⟨0, 0⟩
      some (s.fallback_alloc ⟨block_layout.size, block_layout.align⟩)
  else
    none

/-- `FixedSizeBlockAllocator::alloc`: dispatch on `free_list_index`; with
no matching class, delegate to the fallback arena with the caller's
original layout.  (`free_list_alloc`'s assertion cannot fire, proved
below, so `alloc` never panics; the panic case is still modelled.) -/
def FixedSizeBlockAllocator.alloc (s : FixedSizeBlockAllocator) (l : Layout) :
    Option (Option Nat × FixedSizeBlockAllocator) :=
  match free_list_index s.fallback_allocator.size l with
  | some i => s.free_list_alloc i
  | none => some (s.fallback_alloc l)

/-- `FixedSizeBlockAllocator::dealloc`: a null pointer returns at once;
with a matching class the block is pushed (after the two class-fits-a-node
assertions, whose failure is `none`) onto that class's free list; with no
matching class the pointer is unwrapped as `NonNull` (`none` if null,
unreachable here) and forwarded to `Heap::deallocate`. -/
def FixedSizeBlockAllocator.dealloc (s : FixedSizeBlockAllocator)
    (block_ptr : Nat) (l : Layout) : Option FixedSizeBlockAllocator :=
  if block_ptr = 0 then
    some s
  else
    match free_list_index s.fallback_allocator.size l with
    | some index =>
      let bl := BLOCK_LAYOUTS.getD index ⟨0, 0⟩
      if sizeOfFsbNode ≤ bl.size ∧ alignOfFsbNode ≤ bl.align then
        some { s with
          free_list_heads :=
            s.free_list_heads.set index
              (block_ptr :: s.free_list_heads.getD index []) }
      else
        none
    | none =>
      if block_ptr ≠ 0 then
        some { s with
          fallback_allocator :=
            { s.fallback_allocator with
              deallocs := (block_ptr, l) :: s.fallback_allocator.deallocs } }
      else
        none

/-! ## Heap mapper (`allocator/mod.rs`) -/

/-- `HEAP_START`. -/
def HEAP_START : Nat := 0x444444440000

/-- `HEAP_SIZE`. -/
def HEAP_SIZE : Nat := 100 * 1024

/-- The 4 KiB page size of `Size4KiB`. -/
def PAGE_SIZE : Nat := 4096

/-- `PageTableFlags::PRESENT`. -/
def FLAG_PRESENT : Nat := 1

/-- `PageTableFlags::WRITABLE`. -/
def FLAG_WRITABLE : Nat := 2

/-- `MapToError<Size4KiB>` of the `x86_64` crate, at the interface
`init_heap` uses. -/
inductive MapToError where
  | FrameAllocationFailed
  | ParentEntryHugePage
  | PageAlreadyMapped
  deriving DecidableEq, Repr

/-- `heap_region_pages`: the inclusive range of pages from the page
containing `HEAP_START` to the page containing
`HEAP_START + HEAP_SIZE - 1`, as the list of their start addresses in
ascending order. -/
def heap_region_pages : List Nat :=
  let heap_start := HEAP_START
  let heap_end := HEAP_START + HEAP_SIZE - 1
  let start_page := heap_start / PAGE_SIZE
  let end_page := heap_end / PAGE_SIZE
  (List.range (end_page + 1 - start_page)).map
    fun i => (start_page + i) * PAGE_SIZE

/-- Observable events of `init_heap`: a frame requested for a page, a
mapping installed for a page with a frame and flags, and the global
allocator initialised. -/
inductive HeapInitEvent where
  | frameReq (page : Nat)
  | mapped (page : Nat) (frame : Nat) (flags : Nat)
  | allocInit (heap_start heap_size : Nat)
  deriving DecidableEq, Repr

/-- The `for page in heap_region_pages()` loop of `init_heap`, over an
abstract machine state `σ` holding the frame allocator and mapper (both
external collaborators): each page first requests one frame
(`FrameAllocationFailed` when the source returns `none`), then installs a
`PRESENT | WRITABLE` mapping (the mapper's error is propagated by `?`);
the first failure returns immediately.  Returns the event trace and the
result. -/
def init_heap_loop {σ : Type}
    (allocate_frame : σ → Option (Nat × σ))
    (map_to : Nat → Nat → Nat → σ → Except MapToError σ) :
    List Nat → σ → List HeapInitEvent × Except MapToError σ
  | [], s => ([], .ok s)
  | page :: rest, s =>
    match allocate_frame s with
    | none => ([.frameReq page], .error .FrameAllocationFailed)
    | some (frame, s1) =>
      match map_to page frame (FLAG_PRESENT ||| FLAG_WRITABLE) s1 with
      | .error e => ([.frameReq page], .error e)
      | .ok s2 =>
        let (tr, r) := init_heap_loop allocate_frame map_to rest s2
        (.frameReq page :: .mapped page frame
          (FLAG_PRESENT ||| FLAG_WRITABLE) :: tr, r)

/-- `init_heap`: run the mapping loop over `heap_region_pages`; only when
every page mapped successfully, initialise the global allocator with
`(HEAP_START, HEAP_SIZE)` and return `Ok(())`. -/
def init_heap {σ : Type}
    (allocate_frame : σ → Option (Nat × σ))
    (map_to : Nat → Nat → Nat → σ → Except MapToError σ) (s : σ) :
    List HeapInitEvent × Except MapToError σ :=
  match init_heap_loop allocate_frame map_to heap_region_pages s with
  | (tr, .ok s') => (tr ++ [.allocInit HEAP_START HEAP_SIZE], .ok s')
  | (tr, .error e) => (tr, .error e)

/-! ## Arithmetic facts about `align_up` -/

/-- Masking with `2^n - 2^k` clears the low `k` bits: for `y < 2^n`,
`y &&& (2^n - 2^k) = 2^k * (y / 2^k)`. -/
theorem land_high_mask {y k n : Nat} (hk : k ≤ n) (hy : y < 2 ^ n) :
    y &&& (2 ^ n - 2 ^ k) = 2 ^ k * (y / 2 ^ k) := by
  have hmask : 2 ^ n - 2 ^ k = (2 ^ (n - k) - 1) <<< k := by
    rw [Nat.shiftLeft_eq, Nat.sub_mul, one_mul, ← Nat.pow_add]
    congr 2
    omega
  have hdiv : 2 ^ k * (y / 2 ^ k) = (y >>> k) <<< k := by
    rw [Nat.shiftRight_eq_div_pow, Nat.shiftLeft_eq, Nat.mul_comm]
  apply Nat.eq_of_testBit_eq
  intro i
  rw [hmask, hdiv, Nat.testBit_land, Nat.testBit_shiftLeft,
    Nat.testBit_shiftLeft, Nat.testBit_shiftRight]
  by_cases hik : k ≤ i
  · have : k + (i - k) = i := by omega
    rw [this]
    by_cases hin : i < n
    · simp [hik, Nat.testBit_two_pow_sub_one, show i - k < n - k by omega]
    · have : y.testBit i = false :=
        Nat.testBit_lt_two_pow (lt_of_lt_of_le hy (Nat.pow_le_pow_right (by omega) (by omega)))
      simp [this]
  · simp [show ¬ (i ≥ k) from hik]

/-- `align_up` at a power-of-two alignment rounds the (wrapped) sum up by
clearing its low bits. -/
theorem align_up_pow2 (x : Nat) {k : Nat} (hk : k ≤ 64) :
    align_up x (2 ^ k) = 2 ^ k * (((x + 2 ^ k - 1) % USIZE) / 2 ^ k) := by
  unfold align_up USIZE
  exact land_high_mask hk (Nat.mod_lt _ (by positivity))

/-- The result of `align_up` at a power-of-two alignment is a multiple of
that alignment, wrap or no wrap. -/
theorem align_up_dvd (x : Nat) {k : Nat} (hk : k ≤ 64) :
    2 ^ k ∣ align_up x (2 ^ k) := by
  rw [align_up_pow2 x hk]
  exact Dvd.intro _ rfl

/-- When the internal sum does not wrap, `align_up` is ordinary round-up
division. -/
theorem align_up_eq_of_no_wrap {x k : Nat} (hk : k ≤ 64)
    (hx : x + 2 ^ k - 1 < USIZE) :
    align_up x (2 ^ k) = 2 ^ k * ((x + 2 ^ k - 1) / 2 ^ k) := by
  rw [align_up_pow2 x hk, Nat.mod_eq_of_lt hx]

/-- An already-aligned address is a fixed point of `align_up` (no wrap). -/
theorem align_up_of_dvd {x k : Nat} (hk : k ≤ 64) (hd : 2 ^ k ∣ x)
    (hx : x + 2 ^ k - 1 < USIZE) : align_up x (2 ^ k) = x := by
  obtain ⟨q, rfl⟩ := hd
  rw [align_up_eq_of_no_wrap hk hx]
  have h2k : 0 < 2 ^ k := Nat.pos_pow_of_pos k (by omega)
  have : (2 ^ k * q + (2 ^ k - 1)) / 2 ^ k = q + (2 ^ k - 1) / 2 ^ k := by
    rw [Nat.mul_add_div h2k]
  have hz : (2 ^ k - 1) / 2 ^ k = 0 := Nat.div_eq_of_lt (by omega)
  have harg : 2 ^ k * q + 2 ^ k - 1 = 2 ^ k * q + (2 ^ k - 1) := by omega
  rw [harg, this, hz, Nat.add_zero]

/-- `align_up` never decreases the address when the sum does not wrap. -/
theorem le_align_up {x k : Nat} (hk : k ≤ 64) (hx : x + 2 ^ k - 1 < USIZE) :
    x ≤ align_up x (2 ^ k) := by
  rw [align_up_eq_of_no_wrap hk hx]
  have h2k : 0 < 2 ^ k := Nat.pos_pow_of_pos k (by omega)
  have hmod := Nat.div_add_mod (x + 2 ^ k - 1) (2 ^ k)
  have hlt : (x + 2 ^ k - 1) % 2 ^ k < 2 ^ k := Nat.mod_lt _ h2k
  omega

/-! ## Structure of `alloc_from_region` and `find_region` -/

/-- What success of `alloc_from_region` means: the start is the aligned
start of the region, the end neither overflows nor exceeds the region, and
the excess is zero or at least a node's size. -/
theorem alloc_from_region_ok {region : Node} {size align st : Nat}
    (h : alloc_from_region region size align = .ok st) :
    st = align_up region.start_addr align ∧
    st + size < USIZE ∧
    st + size ≤ region.end_addr ∧
    (region.end_addr - (st + size) = 0 ∨
      sizeOfNode ≤ region.end_addr - (st + size)) := by
  simp only [alloc_from_region] at h
  split_ifs at h with h1 h2 h3
  all_goals cases h
  exact ⟨rfl, h1, h2, by omega⟩

/-- Success of `alloc_from_region`, packaged as an `iff`. -/
theorem alloc_from_region_ok_iff {region : Node} {size align st : Nat} :
    alloc_from_region region size align = .ok st ↔
    (st = align_up region.start_addr align ∧
      st + size < USIZE ∧
      st + size ≤ region.end_addr ∧
      (region.end_addr - (st + size) = 0 ∨
        sizeOfNode ≤ region.end_addr - (st + size))) := by
  constructor
  · exact alloc_from_region_ok
  · rintro ⟨rfl, h1, h2, h3⟩
    unfold alloc_from_region
    rw [if_pos h1, if_pos h2, if_neg (by omega)]

/-- Unfolding `find_region` on a cons whose head is accepted. -/
theorem find_region_cons_ok {r0 : Node} {tl : List Node} {size align s0 : Nat}
    (h : alloc_from_region r0 size align = .ok s0) :
    find_region (r0 :: tl) size align = some (r0, s0, tl) := by
  unfold find_region
  rw [h]

/-- Unfolding `find_region` on a cons whose head is rejected. -/
theorem find_region_cons_err {r0 : Node} {tl : List Node}
    {size align : Nat} {e : AllocFromRegionErr}
    (h : alloc_from_region r0 size align = .error e) :
    find_region (r0 :: tl) size align =
      (find_region tl size align).map fun x => (x.1, x.2.1, r0 :: x.2.2) := by
  conv_lhs => rw [find_region]
  rw [h]

/-- Success of `find_region` locates the first acceptable node: it returns
the node at some index `i`, every earlier node is rejected by
`alloc_from_region`, and the remaining list is the original one with index
`i` removed, order preserved. -/
theorem find_region_eq_some {nodes : List Node} {size align : Nat}
    {r : Node} {st : Nat} {rest : List Node}
    (h : find_region nodes size align = some (r, st, rest)) :
    ∃ i, nodes[i]? = some r ∧
      alloc_from_region r size align = .ok st ∧
      (∀ j, j < i → ∀ n, nodes[j]? = some n →
        ∃ e, alloc_from_region n size align = .error e) ∧
      rest = nodes.take i ++ nodes.drop (i + 1) := by
  induction nodes generalizing rest with
  | nil => simp [find_region] at h
  | cons r0 tl ih =>
    cases hr0 : alloc_from_region r0 size align with
    | ok s0 =>
      rw [find_region_cons_ok hr0] at h
      obtain ⟨rfl, rfl, rfl⟩ : r0 = r ∧ s0 = st ∧ tl = rest := by
        cases h; exact ⟨rfl, rfl, rfl⟩
      exact ⟨0, by simp, hr0, by omega, by simp⟩
    | error e =>
      rw [find_region_cons_err hr0, Option.map_eq_some'] at h
      obtain ⟨⟨n, s, l⟩, hrec, heq⟩ := h
      obtain ⟨rfl, rfl, rfl⟩ : n = r ∧ s = st ∧ r0 :: l = rest := by
        cases heq; exact ⟨rfl, rfl, rfl⟩
      obtain ⟨i, hi1, hi2, hi3, hi4⟩ := ih hrec
      refine ⟨i + 1, by simpa using hi1, hi2, ?_, by simp [hi4]⟩
      intro j hj m hm
      cases j with
      | zero =>
        refine ⟨e, ?_⟩
        obtain rfl : r0 = m := by simpa using hm
        exact hr0
      | succ j' =>
        exact hi3 j' (by omega) m (by simpa using hm)

/-- `find_region` fails exactly when every node is rejected. -/
theorem find_region_eq_none {nodes : List Node} {size align : Nat} :
    find_region nodes size align = none ↔
    ∀ n ∈ nodes, ∃ e, alloc_from_region n size align = .error e := by
  induction nodes with
  | nil => simp [find_region]
  | cons r0 tl ih =>
    cases hr0 : alloc_from_region r0 size align with
    | ok s0 =>
      rw [find_region_cons_ok hr0]
      simp only [List.mem_cons]
      constructor
      · intro h; cases h
      · intro h
        obtain ⟨e, he⟩ := h r0 (Or.inl rfl)
        rw [hr0] at he
        cases he
    | error e =>
      rw [find_region_cons_err hr0, Option.map_eq_none']
      simp only [List.mem_cons]
      constructor
      · intro h m hm
        rcases hm with rfl | hm
        · exact ⟨e, hr0⟩
        · exact ih.mp h m hm
      · intro h
        exact ih.mpr fun m hm => h m (Or.inr hm)

/-! ## Facts about `adjust_layout` -/

/-- The adjusted size is always large enough to host a free-list node. -/
theorem adjust_layout_size_ge (l : Layout) :
    sizeOfNode ≤ (adjust_layout l).1 := by
  unfold adjust_layout
  exact le_max_right _ _

/-- The adjusted alignment of a power-of-two alignment `2^k` is
`2^(max k 3)`: at least the node's alignment, and at least the caller's. -/
theorem adjust_layout_align_pow {l : Layout} {k : Nat} (hal : l.align = 2 ^ k) :
    (adjust_layout l).2 = 2 ^ max k 3 := by
  unfold adjust_layout alignOfNode
  simp only [hal]
  rcases Nat.le_total k 3 with hk | hk
  · rw [max_eq_right hk, max_eq_right (Nat.pow_le_pow_right (by omega) hk)]
  · rw [max_eq_left hk, max_eq_left ?_]
    show (8:Nat) ≤ 2 ^ k
    calc (8:Nat) = 2 ^ 3 := by norm_num
    _ ≤ 2 ^ k := Nat.pow_le_pow_right (by omega) hk

/-- Inversion of a successful `LinkedListAllocator.alloc`: it went through
`find_region` with the adjusted layout, and the free list was updated by
re-inserting the excess (if nonzero) in front of the remaining nodes. -/
theorem LL_alloc_some {nodes : List Node} {l : Layout} {p : Nat}
    {ns : List Node}
    (h : LinkedListAllocator.alloc nodes l = (some p, ns)) :
    ∃ region rest,
      find_region nodes (adjust_layout l).1 (adjust_layout l).2 =
        some (region, p, rest) ∧
      ns = (if 0 < region.end_addr - (p + (adjust_layout l).1) then
        (⟨p + (adjust_layout l).1,
          region.end_addr - (p + (adjust_layout l).1)⟩ : Node) :: rest
      else rest) := by
  unfold LinkedListAllocator.alloc at h
  simp only at h
  cases hfr : find_region nodes (adjust_layout l).1 (adjust_layout l).2 with
  | none =>
    rw [hfr] at h
    cases h
  | some x =>
    obtain ⟨region, st, rest⟩ := x
    rw [hfr] at h
    simp only at h
    split_ifs at h with hex
    · injection h with h1 h2
      injection h1 with h1
      subst h1
      subst h2
      exact ⟨region, rest, rfl, by rw [if_pos hex]⟩
    · injection h with h1 h2
      injection h1 with h1
      subst h1
      subst h2
      exact ⟨region, rest, rfl, by rw [if_neg hex]⟩

/-! ## Claims C1, C2, C8: first-fit scan of the free-list allocator -/

/-- Claim C1, counterexample to the claim as stated.  With free list
`[⟨1000, 24⟩, ⟨2000, 32⟩]` and layout `(size 16, align 8)` (adjusted to
itself), an aligned start address (1000) fits the adjusted size and
alignment within the first node (`1000 + 16 ≤ 1024`), yet `alloc` hands
out address 2000 from the *second* node: the first node is rejected
because its leftover (8 bytes) cannot host a free-list node, so a later
node is chosen over an earlier one that fits in the claim's sense. -/
theorem C1_first_fit_counterexample :
    adjust_layout ⟨16, 8⟩ = (16, 8) ∧
    align_up (Node.start_addr ⟨1000, 24⟩) 8 + 16 ≤ Node.end_addr ⟨1000, 24⟩ ∧
    (LinkedListAllocator.alloc [⟨1000, 24⟩, ⟨2000, 32⟩] ⟨16, 8⟩).1 =
      some 2000 := by
  refine ⟨by rfl, by decide, by rfl⟩

/-- Claim C1 (amended): for every `alloc(layout)` call that returns a
pointer, the node used is the first node in current list order (head to
tail) that `alloc_from_region` accepts — an aligned start address fits the
adjusted size and alignment within the node *and* the leftover at its end
is zero or at least `sizeof(Node)`; every earlier node was rejected, so no
later node is ever chosen over an earlier acceptable one. -/
theorem C1_first_fit (nodes : List Node) (l : Layout) (p : Nat)
    (ns : List Node) (h : LinkedListAllocator.alloc nodes l = (some p, ns)) :
    ∃ (i : Nat) (region : Node), nodes[i]? = some region ∧
      alloc_from_region region (adjust_layout l).1 (adjust_layout l).2 =
        .ok p ∧
      ∀ j, j < i → ∀ n : Node, nodes[j]? = some n →
        ∃ e, alloc_from_region n (adjust_layout l).1 (adjust_layout l).2 =
          .error e := by
  obtain ⟨region, rest, hfr, -⟩ := LL_alloc_some h
  obtain ⟨i, hi1, hi2, hi3, -⟩ := find_region_eq_some hfr
  exact ⟨i, region, hi1, hi2, hi3⟩

/-- Witness for C1: the amended theorem applied to the counterexample's
free list, where `alloc` returns 2000 out of the second node. -/
theorem C1_first_fit_witness :
    ∃ (i : Nat) (region : Node),
      ([⟨1000, 24⟩, ⟨2000, 32⟩] : List Node)[i]? = some region ∧
      alloc_from_region region (adjust_layout ⟨16, 8⟩).1
        (adjust_layout ⟨16, 8⟩).2 = .ok 2000 ∧
      ∀ j : Nat, j < i → ∀ n : Node,
        ([⟨1000, 24⟩, ⟨2000, 32⟩] : List Node)[j]? = some n →
        ∃ e, alloc_from_region n (adjust_layout ⟨16, 8⟩).1
          (adjust_layout ⟨16, 8⟩).2 = .error e :=
  C1_first_fit [⟨1000, 24⟩, ⟨2000, 32⟩] ⟨16, 8⟩ 2000
    [⟨2016, 16⟩, ⟨1000, 24⟩] (by rfl)

/-- Claim C2, counterexample to the claim as stated.  Free list
`[⟨1000, 24⟩]`, layout `(16, 8)` (adjusted to itself): the node can hold
the adjusted allocation (`1000 + 16 ≤ 1024`) with a nonzero leftover of
`8 < sizeof(Node) = 16` bytes, yet the allocation does *not* use the node:
`alloc_from_region` rejects it with `ExcessCannotFitANode` and `alloc`
returns null. -/
theorem C2_small_excess_counterexample :
    adjust_layout ⟨16, 8⟩ = (16, 8) ∧
    align_up (Node.start_addr ⟨1000, 24⟩) 8 + 16 ≤ Node.end_addr ⟨1000, 24⟩ ∧
    Node.end_addr ⟨1000, 24⟩ - (align_up (Node.start_addr ⟨1000, 24⟩) 8 + 16)
      = 8 ∧
    alloc_from_region ⟨1000, 24⟩ 16 8 = .error .ExcessCannotFitANode ∧
    LinkedListAllocator.alloc [⟨1000, 24⟩] ⟨16, 8⟩ = (none, [⟨1000, 24⟩]) :=
  ⟨by rfl, by decide, by rfl, by rfl, by rfl⟩

/-- Claim C2 (amended): when a free node could hold the adjusted
allocation but the leftover space at its end would be nonzero and smaller
than `sizeof(Node)`, the node is *not* used: `alloc_from_region` rejects
it with `ExcessCannotFitANode`, and the scan moves past it to later nodes.
No leftover is ever silently forfeited; a node is only ever used when its
leftover is zero or large enough to be re-inserted as a free node. -/
theorem C2_small_excess_rejected (region : Node) (size align : Nat)
    (tl : List Node)
    (hfit : align_up region.start_addr align + size ≤ region.end_addr)
    (hpos : 0 < region.end_addr - (align_up region.start_addr align + size))
    (hsmall : region.end_addr - (align_up region.start_addr align + size) <
      sizeOfNode) :
    alloc_from_region region size align = .error .ExcessCannotFitANode ∧
    find_region (region :: tl) size align =
      (find_region tl size align).map fun x => (x.1, x.2.1, region :: x.2.2) := by
  have hov : align_up region.start_addr align + size < USIZE := by
    have : region.end_addr < USIZE := Nat.mod_lt _ (by unfold USIZE; positivity)
    omega
  have herr : alloc_from_region region size align =
      .error .ExcessCannotFitANode := by
    unfold alloc_from_region
    rw [if_pos hov, if_pos hfit, if_pos ⟨hpos, hsmall⟩]
  exact ⟨herr, find_region_cons_err herr⟩

/-- Witness for C2: a node at 2000 of 40 bytes, request of 32 bytes
aligned to 8 — the leftover would be 8 bytes, so the node is rejected and
the scan continues (here: to an empty tail). -/
theorem C2_small_excess_rejected_witness :
    alloc_from_region ⟨2000, 40⟩ 32 8 = .error .ExcessCannotFitANode ∧
    find_region [⟨2000, 40⟩] 32 8 =
      (find_region [] 32 8).map fun x => (x.1, x.2.1, (⟨2000, 40⟩ : Node) :: x.2.2) :=
  C2_small_excess_rejected ⟨2000, 40⟩ 32 8 [] (by decide)
    (by decide) (by decide)

/-- Claim C8: if computing `alloc_start + size` for a candidate node
overflows the address space, `alloc_from_region` fails with
`AddressOverflow`, which `find_region` treats like any other non-fit — the
scan continues with the next node — and when no node fits at all, `alloc`
returns null with the free list untouched; the overflow is never surfaced
as a distinct error of `alloc`. -/
theorem C8_overflow_is_non_fit (region : Node) (size align : Nat)
    (tl nodes : List Node) (l : Layout) :
    (USIZE ≤ align_up region.start_addr align + size →
      alloc_from_region region size align = .error .AddressOverflow ∧
      find_region (region :: tl) size align =
        (find_region tl size align).map
          fun x => (x.1, x.2.1, region :: x.2.2)) ∧
    (find_region nodes (adjust_layout l).1 (adjust_layout l).2 = none →
      LinkedListAllocator.alloc nodes l = (none, nodes)) := by
  constructor
  · intro hov
    have herr : alloc_from_region region size align =
        .error .AddressOverflow := by
      unfold alloc_from_region
      rw [if_neg (by omega)]
    exact ⟨herr, find_region_cons_err herr⟩
  · intro hnone
    unfold LinkedListAllocator.alloc
    simp only
    rw [hnone]

/-- Witness for C8: a single free node at address 8 and a request of
`USIZE - 8` bytes — `8 + (USIZE - 8)` overflows, the node is treated as a
non-fit, and with no other node `alloc` returns null. -/
theorem C8_overflow_is_non_fit_witness :
    (alloc_from_region ⟨8, 16⟩ (USIZE - 8) 8 = .error .AddressOverflow ∧
      find_region [⟨8, 16⟩] (USIZE - 8) 8 =
        (find_region [] (USIZE - 8) 8).map
          fun x => (x.1, x.2.1, (⟨8, 16⟩ : Node) :: x.2.2)) ∧
    LinkedListAllocator.alloc [⟨8, 16⟩] ⟨USIZE - 8, 8⟩ = (none, [⟨8, 16⟩]) :=
  ⟨(C8_overflow_is_non_fit ⟨8, 16⟩ (USIZE - 8) 8 [] [] ⟨0, 0⟩).1 (by rfl),
    (C8_overflow_is_non_fit ⟨8, 16⟩ 0 0 [] [⟨8, 16⟩] ⟨USIZE - 8, 8⟩).2
      (by rfl)⟩

/-! ## Claim C10: dealloc after a matching alloc never panics -/

/-- Claim C10: for every `dealloc(ptr, layout)` on the free-list allocator
where `ptr` was returned by a previous `alloc` with an identical layout,
both assertions inside `add_free_region` hold — the adjusted size is at
least `sizeof(Node)` (because `adjust_layout` raises the size to at least
`size_of::<Node>()`), and `ptr` is aligned to `Node`'s alignment (because
`adjust_layout` raises the alignment to at least `align_of::<Node>()` and
`alloc` returns an address aligned to the adjusted alignment) — so the
`dealloc` never panics: it pushes the freed node and returns. -/
theorem C10_dealloc_no_panic (nodes ns nodes2 : List Node) (l : Layout)
    (p k : Nat) (hk : k ≤ 63) (hal : l.align = 2 ^ k)
    (h : LinkedListAllocator.alloc nodes l = (some p, ns)) :
    sizeOfNode ≤ (adjust_layout l).1 ∧
    align_up p alignOfNode = p ∧
    LinkedListAllocator.dealloc nodes2 p l =
      some (⟨p, (adjust_layout l).1⟩ :: nodes2) := by
  obtain ⟨region, rest, hfr, -⟩ := LL_alloc_some h
  obtain ⟨i, -, hok, -, -⟩ := find_region_eq_some hfr
  obtain ⟨hp, hov, -, -⟩ := alloc_from_region_ok hok
  have hm : max k 3 ≤ 64 := by omega
  have halign : (adjust_layout l).2 = 2 ^ max k 3 := adjust_layout_align_pow hal
  have hdvd : 2 ^ max k 3 ∣ p := by
    rw [hp, halign]
    exact align_up_dvd _ hm
  have h8 : (2 : Nat) ^ 3 ∣ p :=
    dvd_trans (pow_dvd_pow 2 (le_max_right k 3)) hdvd
  have hsz : sizeOfNode ≤ (adjust_layout l).1 := adjust_layout_size_ge l
  have hpbound : p + 2 ^ 3 - 1 < USIZE := by
    have : sizeOfNode = 16 := rfl
    omega
  have hfix : align_up p alignOfNode = p := by
    have : alignOfNode = 2 ^ 3 := rfl
    rw [this]
    exact align_up_of_dvd (by omega) h8 hpbound
  refine ⟨hsz, hfix, ?_⟩
  unfold LinkedListAllocator.dealloc add_free_region
  rw [if_pos ⟨hsz, hfix⟩]

/-- Witness for C10: from the free list `[⟨1000, 32⟩]` an allocation of
layout `(16, 8)` returns address 1000; deallocating it (here into an empty
free list) succeeds without a panic. -/
theorem C10_dealloc_no_panic_witness :
    sizeOfNode ≤ (adjust_layout ⟨16, 8⟩).1 ∧
    align_up 1000 alignOfNode = 1000 ∧
    LinkedListAllocator.dealloc [] 1000 ⟨16, 8⟩ =
      some [⟨1000, (adjust_layout ⟨16, 8⟩).1⟩] :=
  C10_dealloc_no_panic [⟨1000, 32⟩] [⟨1016, 16⟩] [] ⟨16, 8⟩ 1000 3
    (by omega) (by rfl) (by rfl)

/-! ## Structure of `free_list_index` -/

/-- `findIdx?` over a `filter` whose predicate is antitone along the list
(once it fails it fails for the rest): the filter keeps a prefix, so the
position in the filtered list equals the first index satisfying both
predicates in the original list. -/
theorem findIdx_filter_antitone {α : Type} (p q : α → Bool) (xs : List α)
    (hpw : xs.Pairwise fun a b => q b = true → q a = true) :
    (xs.filter q).findIdx? p = xs.findIdx? fun x => p x && q x := by
  induction xs with
  | nil => rfl
  | cons a t ih =>
    obtain ⟨ha, hp⟩ := List.pairwise_cons.mp hpw
    by_cases hq : q a
    · rw [List.filter_cons_of_pos hq, List.findIdx?_cons, List.findIdx?_cons]
      by_cases hpa : p a
      · rw [if_pos hpa, if_pos (by simp [hpa, hq])]
      · rw [if_neg hpa, if_neg (by simp [hpa]),
          List.findIdx?_start_succ, List.findIdx?_start_succ, ih hp]
    · have hnone : ∀ b ∈ t, q b = false := by
        intro b hb
        by_contra hqb
        exact hq (ha b hb (by simpa using hqb))
      rw [List.filter_cons_of_neg hq,
        List.filter_eq_nil_iff.mpr (by intro b hb; rw [hnone b hb]; simp),
        List.findIdx?_nil, List.findIdx?_cons,
        if_neg (by rw [Bool.not_eq_true, Bool.and_eq_false_iff]; right; simpa using hq),
        List.findIdx?_start_succ,
        List.findIdx?_eq_none_iff.mpr (by intro b hb; rw [hnone b hb]; simp)]
      rfl

/-- `free_list_index` as a single scan of the table: the first class that
fits the layout *and* has size below the heap capacity.  (The `filter`
keeps a prefix of the table since the sizes are increasing, so filtered
positions are table indices.) -/
theorem free_list_index_eq (hs : Nat) (l : Layout) :
    free_list_index hs l =
      BLOCK_LAYOUTS.findIdx? fun b =>
        decide (l.size ≤ b.size ∧ l.align ≤ b.align) &&
          decide (b.size < hs) := by
  unfold free_list_index
  apply findIdx_filter_antitone
  have hmono : BLOCK_LAYOUTS.Pairwise fun a b => a.size ≤ b.size := by decide
  refine hmono.imp ?_
  intro a b hab hb
  simp only [decide_eq_true_eq] at hb ⊢
  omega

/-- What `free_list_index hs l = some i` means: class `i` fits the layout,
its size is below the heap capacity, and no earlier class does both. -/
theorem free_list_index_some {hs : Nat} {l : Layout} {i : Nat}
    (h : free_list_index hs l = some i) :
    ∃ b, BLOCK_LAYOUTS[i]? = some b ∧
      l.size ≤ b.size ∧ l.align ≤ b.align ∧ b.size < hs ∧
      ∀ j, j < i → ∀ c, BLOCK_LAYOUTS[j]? = some c →
        ¬(l.size ≤ c.size ∧ l.align ≤ c.align ∧ c.size < hs) := by
  rw [free_list_index_eq, List.findIdx?_eq_some_iff_getElem] at h
  obtain ⟨hlen, hpi, hprev⟩ := h
  simp only [Bool.and_eq_true, decide_eq_true_eq] at hpi
  refine ⟨BLOCK_LAYOUTS[i], List.getElem?_eq_getElem hlen,
    hpi.1.1, hpi.1.2, hpi.2, ?_⟩
  intro j hj c hc hcontra
  obtain ⟨hjlen, rfl⟩ := List.getElem?_eq_some_iff.mp hc
  have := hprev j hj
  simp only [Bool.and_eq_true, decide_eq_true_eq, not_and] at this
  exact absurd hcontra (by tauto)

/-- What `free_list_index hs l = none` means: no class both fits the
layout and has size below the heap capacity. -/
theorem free_list_index_none {hs : Nat} {l : Layout}
    (h : free_list_index hs l = none) :
    ∀ b ∈ BLOCK_LAYOUTS,
      ¬(l.size ≤ b.size ∧ l.align ≤ b.align ∧ b.size < hs) := by
  rw [free_list_index_eq, List.findIdx?_eq_none_iff] at h
  intro b hb hcontra
  have := h b hb
  simp only [Bool.and_eq_false_iff, decide_eq_false_iff_not] at this
  tauto

/-- A matched class index is a valid free-list index. -/
theorem free_list_index_lt {hs : Nat} {l : Layout} {i : Nat}
    (h : free_list_index hs l = some i) : i < FREE_LISTS_COUNT := by
  obtain ⟨b, hb, -⟩ := free_list_index_some h
  obtain ⟨hlen, -⟩ := List.getElem?_eq_some_iff.mp hb
  exact hlen

/-- Every entry of `BLOCK_LAYOUTS` is a power of two between `2^3` and
`2^11`, with `size = align`. -/
theorem block_layout_facts {i : Nat} {b : BlockLayout}
    (h : BLOCK_LAYOUTS[i]? = some b) :
    ∃ m, 3 ≤ m ∧ m ≤ 11 ∧ b.size = 2 ^ m ∧ b.align = 2 ^ m := by
  have hi : i < BLOCK_LAYOUTS.length :=
    (List.getElem?_eq_some_iff.mp h).fst
  have hlen : BLOCK_LAYOUTS.length = 9 := by rfl
  rw [hlen] at hi
  interval_cases i <;> injection h with h <;> subst h <;>
    first
      | exact ⟨3, by decide⟩
      | exact ⟨4, by decide⟩
      | exact ⟨5, by decide⟩
      | exact ⟨6, by decide⟩
      | exact ⟨7, by decide⟩
      | exact ⟨8, by decide⟩
      | exact ⟨9, by decide⟩
      | exact ⟨10, by decide⟩
      | exact ⟨11, by decide⟩

/-- `getD` after `set` on the free-list-head array. -/
theorem getD_set_lists (xs : List (List Nat)) (i j : Nat) (v : List Nat) :
    (xs.set i v).getD j [] =
      if i = j ∧ i < xs.length then v else xs.getD j [] := by
  rw [List.getD_eq_getElem?_getD, List.getD_eq_getElem?_getD,
    List.getElem?_set]
  by_cases hij : i = j
  · subst hij
    by_cases hlen : i < xs.length
    · simp [hlen]
    · simp [hlen, List.getElem?_eq_none (Nat.le_of_not_lt hlen)]
  · simp [hij]

/-! ## Claims C3, C4, C5, C7: the fixed-size-block allocator -/

/-- A fallback arena used by witnesses: full heap capacity, never
satisfies a request, no deallocations recorded. -/
def sampleHeap : Heap :=
  { size := HEAP_SIZE, firstFit := fun _ => none, deallocs := [] }

/-- An allocator state used by witnesses: class list 1 holds one free
block at 4096, all other lists are empty. -/
def sampleState : FixedSizeBlockAllocator :=
  { free_list_heads := (List.replicate FREE_LISTS_COUNT []).set 1 [4096]
    fallback_allocator := sampleHeap }

/-- Claim C3: `alloc` selects the smallest class (in table order) whose
size and alignment cover the layout, restricted to classes whose size is
strictly below the fallback arena's total heap capacity; when a class
matches, `alloc` dispatches to that class's free list, and when none
matches, the request is delegated entirely to the fallback arena with the
caller's *original* layout. -/
theorem C3_class_selection (s : FixedSizeBlockAllocator) (l : Layout) :
    (∀ i : Nat, free_list_index s.fallback_allocator.size l = some i →
      s.alloc l = s.free_list_alloc i ∧
      ∃ b, BLOCK_LAYOUTS[i]? = some b ∧
        l.size ≤ b.size ∧ l.align ≤ b.align ∧
        b.size < s.fallback_allocator.size ∧
        ∀ j, j < i → ∀ c, BLOCK_LAYOUTS[j]? = some c →
          ¬(l.size ≤ c.size ∧ l.align ≤ c.align ∧
            c.size < s.fallback_allocator.size)) ∧
    (free_list_index s.fallback_allocator.size l = none →
      (∀ b ∈ BLOCK_LAYOUTS,
        ¬(l.size ≤ b.size ∧ l.align ≤ b.align ∧
          b.size < s.fallback_allocator.size)) ∧
      s.alloc l = some (s.fallback_alloc l)) := by
  constructor
  · intro i hi
    refine ⟨?_, free_list_index_some hi⟩
    unfold FixedSizeBlockAllocator.alloc
    rw [hi]
  · intro hn
    refine ⟨free_list_index_none hn, ?_⟩
    unfold FixedSizeBlockAllocator.alloc
    rw [hn]

/-- Witness for C3: a 100-byte, 8-aligned request on a full-capacity heap
selects class 4 (the 128-byte class): classes 8..64 are too small,
and 128 is the first that fits. -/
theorem C3_class_selection_witness :
    sampleState.alloc ⟨100, 8⟩ = sampleState.free_list_alloc 4 ∧
    ∃ b, BLOCK_LAYOUTS[4]? = some b ∧
      (100 : Nat) ≤ b.size ∧ (8 : Nat) ≤ b.align ∧
      b.size < sampleState.fallback_allocator.size ∧
      ∀ j, j < 4 → ∀ c, BLOCK_LAYOUTS[j]? = some c →
        ¬((100 : Nat) ≤ c.size ∧ (8 : Nat) ≤ c.align ∧
          c.size < sampleState.fallback_allocator.size) :=
  (C3_class_selection sampleState ⟨100, 8⟩).1 4 (by decide)

/-- Claim C4: when a size class `i` matches the request, `alloc` pops and
returns the head of class `i`'s free list if it is non-empty; if that list
is empty, it requests a block from the fallback arena with exactly the
class's `(size, align)` layout — not the caller's original layout. -/
theorem C4_class_alloc (s : FixedSizeBlockAllocator) (l : Layout) (i : Nat)
    (h : free_list_index s.fallback_allocator.size l = some i) :
    (∀ (node : Nat) (rest : List Nat),
      s.free_list_heads.getD i [] = node :: rest →
      s.alloc l = some (some node,
        { s with free_list_heads := s.free_list_heads.set i rest })) ∧
    (s.free_list_heads.getD i [] = [] →
      ∃ b, BLOCK_LAYOUTS[i]? = some b ∧
        s.alloc l = some (s.fallback_alloc ⟨b.size, b.align⟩)) := by
  have hlt := free_list_index_lt h
  constructor
  · intro node rest hlist
    unfold FixedSizeBlockAllocator.alloc
    rw [h]
    unfold FixedSizeBlockAllocator.free_list_alloc
    dsimp only
    rw [if_pos hlt, hlist]
  · intro hempty
    obtain ⟨b, hb, -⟩ := free_list_index_some h
    refine ⟨b, hb, ?_⟩
    unfold FixedSizeBlockAllocator.alloc
    rw [h]
    unfold FixedSizeBlockAllocator.free_list_alloc
    dsimp only
    rw [if_pos hlt, hempty]
    have hgetD : BLOCK_LAYOUTS.getD i ⟨0, 0⟩ = b := by
      rw [List.getD_eq_getElem?_getD, hb]
      rfl
    dsimp only
    rw [hgetD]

/-- Witness for C4: a 9-byte request matches class 1 (16 bytes), whose
list holds the block 4096 — `alloc` pops it; a 17-byte request matches
class 2 (32 bytes), whose list is empty — the fallback arena is asked for
exactly a `(32, 32)` block. -/
theorem C4_class_alloc_witness :
    sampleState.alloc ⟨9, 8⟩ = some (some 4096,
      { sampleState with
        free_list_heads := sampleState.free_list_heads.set 1 [] }) ∧
    ∃ b, BLOCK_LAYOUTS[2]? = some b ∧
      sampleState.alloc ⟨17, 8⟩ =
        some (sampleState.fallback_alloc ⟨b.size, b.align⟩) :=
  ⟨(C4_class_alloc sampleState ⟨9, 8⟩ 1 (by decide)).1 4096 [] (by decide),
    (C4_class_alloc sampleState ⟨17, 8⟩ 2 (by decide)).2 (by decide)⟩

/-- Claim C5: `dealloc` with a null pointer is a no-op for every layout:
it returns immediately with the state unchanged — all free-list heads and
the fallback arena (including its record of forwarded deallocations) are
exactly as before, so the null pointer is never forwarded to the fallback
arena. -/
theorem C5_dealloc_null_noop (s : FixedSizeBlockAllocator) (l : Layout) :
    s.dealloc 0 l = some s := by
  unfold FixedSizeBlockAllocator.dealloc
  rw [if_pos rfl]

/-- Claim C7: an allocator built with `empty()` and never initialised
returns null for every `alloc` call: the fallback arena's capacity is 0,
so no size class passes the `size < heap capacity` restriction and the
(empty) fallback arena satisfies no request. -/
theorem C7_empty_alloc_null (l : Layout) :
    free_list_index
      FixedSizeBlockAllocator.empty.fallback_allocator.size l = none ∧
    FixedSizeBlockAllocator.empty.alloc l =
      some (none, FixedSizeBlockAllocator.empty) := by
  have hn : free_list_index 0 l = none := by
    rw [free_list_index_eq]
    apply List.findIdx?_eq_none_iff.mpr
    intro b hb
    simp
  refine ⟨hn, ?_⟩
  unfold FixedSizeBlockAllocator.alloc
  rw [show FixedSizeBlockAllocator.empty.fallback_allocator.size = 0
    from rfl, hn]
  rfl

/-! ## Claim C9: alignment of returned addresses -/

/-- The class-list alignment invariant of the fixed-size-block allocator:
every block address on class list `i` is a multiple of
`BLOCK_LAYOUTS[i].align`. -/
def AlignedLists (s : FixedSizeBlockAllocator) : Prop :=
  ∀ i : Fin FREE_LISTS_COUNT,
    ∀ p ∈ s.free_list_heads.getD i.val [],
      p % (BLOCK_LAYOUTS.getD i.val ⟨0, 0⟩).align = 0

/-- Modelled from the spec: the alignment contract of the external
fallback arena (`linked_list_allocator::Heap`, not part of this
repository), per the spec's allocator-interface property "for all
successful `alloc(size, align)` calls, the returned address modulo
`align` is zero". -/
def HeapAligned (h : Heap) : Prop :=
  ∀ (l : Layout) (p : Nat), h.firstFit l = some p → p % l.align = 0

/-- `getD` on the class table agrees with a known `getElem?`. -/
theorem table_getD {i : Nat} {b : BlockLayout}
    (h : BLOCK_LAYOUTS[i]? = some b) :
    BLOCK_LAYOUTS.getD i ⟨0, 0⟩ = b := by
  rw [List.getD_eq_getElem?_getD, h]
  rfl

/-- Between powers of two, `≤` gives divisibility. -/
theorem pow2_le_dvd {k m : Nat} (h : (2 : Nat) ^ k ≤ 2 ^ m) :
    (2 : Nat) ^ k ∣ 2 ^ m :=
  pow_dvd_pow 2 ((Nat.pow_le_pow_iff_right (by omega)).mp h)

/-- `alloc` when class `i` matches and its free list is non-empty: the
head is popped. -/
theorem FSB_alloc_pop {s : FixedSizeBlockAllocator} {l : Layout} {i : Nat}
    (h : free_list_index s.fallback_allocator.size l = some i)
    (hlt : i < FREE_LISTS_COUNT) {node : Nat} {rest : List Nat}
    (hlist : s.free_list_heads.getD i [] = node :: rest) :
    s.alloc l = some (some node,
      { s with free_list_heads := s.free_list_heads.set i rest }) := by
  unfold FixedSizeBlockAllocator.alloc
  rw [h]
  unfold FixedSizeBlockAllocator.free_list_alloc
  dsimp only
  rw [if_pos hlt, hlist]

/-- `alloc` when class `i` matches and its free list is empty: the
fallback arena is asked for exactly the class's layout. -/
theorem FSB_alloc_class_fallback {s : FixedSizeBlockAllocator} {l : Layout}
    {i : Nat} (h : free_list_index s.fallback_allocator.size l = some i)
    (hlt : i < FREE_LISTS_COUNT)
    (hempty : s.free_list_heads.getD i [] = []) {b : BlockLayout}
    (hb : BLOCK_LAYOUTS[i]? = some b) :
    s.alloc l = some (s.fallback_alloc ⟨b.size, b.align⟩) := by
  unfold FixedSizeBlockAllocator.alloc
  rw [h]
  unfold FixedSizeBlockAllocator.free_list_alloc
  dsimp only
  rw [if_pos hlt, hempty]
  dsimp only
  rw [table_getD hb]

/-- `alloc` when no class matches: full delegation with the original
layout. -/
theorem FSB_alloc_fallback {s : FixedSizeBlockAllocator} {l : Layout}
    (h : free_list_index s.fallback_allocator.size l = none) :
    s.alloc l = some (s.fallback_alloc l) := by
  unfold FixedSizeBlockAllocator.alloc
  rw [h]

/-- `AlignedLists` is decidable (the table and each list are concrete
data), so witnesses can discharge it by evaluation. -/
instance (s : FixedSizeBlockAllocator) : Decidable (AlignedLists s) := by
  unfold AlignedLists
  infer_instance

/-- Claim C9: every successful `alloc` returns an address that is a
multiple of the requested alignment.  (1) For the free-list allocator this
holds outright: the address is `align_up` of a region start at the
adjusted alignment, a multiple of the requested power-of-two alignment.
(2) For the fixed-size-block allocator it holds given the class-list
alignment invariant `AlignedLists` and the fallback arena's alignment
contract; a successful `alloc` moreover returns an address aligned to the
matched class's alignment and preserves the invariant.  (3) `dealloc`
preserves the invariant whenever the freed pointer is aligned to its
matched class's alignment — which (2) guarantees for any pointer returned
by an `alloc` with an identical layout. -/
theorem C9_alloc_alignment :
    (∀ (nodes ns : List Node) (l : Layout) (p k : Nat), k ≤ 63 →
      l.align = 2 ^ k → LinkedListAllocator.alloc nodes l = (some p, ns) →
      p % l.align = 0) ∧
    (∀ (s : FixedSizeBlockAllocator) (l : Layout)
      (r : Option Nat × FixedSizeBlockAllocator) (p k : Nat),
      l.align = 2 ^ k → AlignedLists s → HeapAligned s.fallback_allocator →
      s.alloc l = some r → r.1 = some p →
      p % l.align = 0 ∧ AlignedLists r.2 ∧
      (∀ (i : Nat) (b : BlockLayout),
        free_list_index s.fallback_allocator.size l = some i →
        BLOCK_LAYOUTS[i]? = some b → p % b.align = 0)) ∧
    (∀ (s s2 : FixedSizeBlockAllocator) (l : Layout) (ptr : Nat),
      AlignedLists s →
      (∀ (i : Nat) (b : BlockLayout),
        free_list_index s.fallback_allocator.size l = some i →
        BLOCK_LAYOUTS[i]? = some b → ptr % b.align = 0) →
      s.dealloc ptr l = some s2 → AlignedLists s2) := by
  refine ⟨?_, ?_, ?_⟩
  · -- free-list allocator
    intro nodes ns l p k hk hal h
    obtain ⟨region, rest, hfr, -⟩ := LL_alloc_some h
    obtain ⟨i, -, hok, -, -⟩ := find_region_eq_some hfr
    obtain ⟨hp, -, -, -⟩ := alloc_from_region_ok hok
    have halign : (adjust_layout l).2 = 2 ^ max k 3 :=
      adjust_layout_align_pow hal
    have hdvd : 2 ^ max k 3 ∣ p := by
      rw [hp, halign]
      exact align_up_dvd _ (by omega)
    have hkp : (2 : Nat) ^ k ∣ p :=
      dvd_trans (pow_dvd_pow 2 (le_max_left k 3)) hdvd
    rw [hal]
    exact Nat.mod_eq_zero_of_dvd hkp
  · -- fixed-size-block alloc
    intro s l r p k hal hinv hheap hr hp
    cases hidx : free_list_index s.fallback_allocator.size l with
    | none =>
      rw [FSB_alloc_fallback hidx] at hr
      injection hr with hr
      subst hr
      simp only [FixedSizeBlockAllocator.fallback_alloc] at hp ⊢
      exact ⟨hheap l p hp, hinv, fun i b hi => by cases hi⟩
    | some i =>
      have hlt := free_list_index_lt hidx
      obtain ⟨b, hb, -, hba, -, -⟩ := free_list_index_some hidx
      obtain ⟨m, -, -, -, hbm⟩ := block_layout_facts hb
      have hladvd : l.align ∣ b.align := by
        rw [hal, hbm]
        exact pow2_le_dvd (by rw [← hal, ← hbm]; exact hba)
      cases hlist : s.free_list_heads.getD i [] with
      | cons node rest =>
        rw [FSB_alloc_pop hidx hlt hlist] at hr
        injection hr with hr
        subst hr
        simp only at hp
        obtain rfl : p = node := by
          injection hp with hp2
          omega
        have hnode : p % b.align = 0 := by
          have hm := hinv ⟨i, hlt⟩ p
            (by rw [hlist]; exact List.mem_cons_self ..)
          rwa [table_getD hb] at hm
        refine ⟨?_, ?_, ?_⟩
        · rw [hal]
          exact Nat.mod_eq_zero_of_dvd
            (dvd_trans (hal ▸ hladvd) (Nat.dvd_of_mod_eq_zero hnode))
        · intro j q hq
          simp only at hq
          rw [getD_set_lists] at hq
          by_cases hcond : i = (j : Nat) ∧ i < s.free_list_heads.length
          · rw [if_pos hcond] at hq
            obtain ⟨hij, -⟩ := hcond
            refine hinv j q ?_
            rw [← hij, hlist]
            exact List.mem_cons_of_mem _ hq
          · rw [if_neg hcond] at hq
            exact hinv j q hq
        · intro i2 b2 hi2 hb2
          injection hi2 with hi2
          subst hi2
          rw [hb] at hb2
          injection hb2 with hb2
          subst hb2
          exact hnode
      | nil =>
        rw [FSB_alloc_class_fallback hidx hlt hlist hb] at hr
        injection hr with hr
        subst hr
        simp only [FixedSizeBlockAllocator.fallback_alloc] at hp ⊢
        have hpb : p % b.align = 0 := hheap ⟨b.size, b.align⟩ p hp
        refine ⟨?_, hinv, ?_⟩
        · rw [hal]
          exact Nat.mod_eq_zero_of_dvd
            (dvd_trans (hal ▸ hladvd) (Nat.dvd_of_mod_eq_zero hpb))
        · intro i2 b2 hi2 hb2
          injection hi2 with hi2
          subst hi2
          rw [hb] at hb2
          injection hb2 with hb2
          subst hb2
          exact hpb
  · -- fixed-size-block dealloc
    intro s s2 l ptr hinv hptr h
    by_cases h0 : ptr = 0
    · unfold FixedSizeBlockAllocator.dealloc at h
      rw [if_pos h0] at h
      injection h with h
      subst h
      exact hinv
    · cases hidx : free_list_index s.fallback_allocator.size l with
      | some i =>
        have hlt := free_list_index_lt hidx
        obtain ⟨b, hb, -⟩ := free_list_index_some hidx
        obtain ⟨m, hm3, -, hbs, hba⟩ := block_layout_facts hb
        have h8 : (8 : Nat) ≤ 2 ^ m :=
          le_trans (by norm_num) (Nat.pow_le_pow_right (by omega) hm3)
        have hassert : sizeOfFsbNode ≤ (BLOCK_LAYOUTS.getD i ⟨0, 0⟩).size ∧
            alignOfFsbNode ≤ (BLOCK_LAYOUTS.getD i ⟨0, 0⟩).align := by
          rw [table_getD hb, hbs, hba]
          exact ⟨h8, h8⟩
        unfold FixedSizeBlockAllocator.dealloc at h
        rw [if_neg h0, hidx] at h
        simp only at h
        rw [if_pos hassert] at h
        injection h with h
        subst h
        intro j q hq
        simp only at hq
        rw [getD_set_lists] at hq
        by_cases hcond : i = (j : Nat) ∧ i < s.free_list_heads.length
        · rw [if_pos hcond] at hq
          obtain ⟨hij, -⟩ := hcond
          rcases List.mem_cons.mp hq with rfl | hq2
          · rw [← hij, table_getD hb]
            exact hptr i b hidx hb
          · refine hinv j q ?_
            rw [← hij]
            exact hq2
        · rw [if_neg hcond] at hq
          exact hinv j q hq
      | none =>
        unfold FixedSizeBlockAllocator.dealloc at h
        rw [if_neg h0, hidx] at h
        simp only at h
        rw [if_pos h0] at h
        injection h with h
        subst h
        intro j q hq
        exact hinv j q hq

/-- Witness for C9: (1) allocating `(16, 8)` from the free list
`[⟨1000, 32⟩]` returns 1000, a multiple of 8; (2) on `sampleState`
(class list 1 holds block 4096, fallback never allocates) the request
`(9, 8)` pops 4096, a multiple of 8, preserving the invariant; (3)
deallocating 4096 with the same layout back into the resulting state
preserves the invariant. -/
theorem C9_alloc_alignment_witness :
    (1000 % (8 : Nat) = 0) ∧
    (4096 % (8 : Nat) = 0 ∧
      AlignedLists { sampleState with
        free_list_heads := sampleState.free_list_heads.set 1 [] }) ∧
    AlignedLists sampleState := by
  have h1 := C9_alloc_alignment.1 [⟨1000, 32⟩] [⟨1016, 16⟩] ⟨16, 8⟩ 1000 3
    (by omega) (by rfl) (by rfl)
  have h2 := C9_alloc_alignment.2.1 sampleState ⟨9, 8⟩
    (some 4096, { sampleState with
      free_list_heads := sampleState.free_list_heads.set 1 [] })
    4096 3 (by rfl) (by decide) (fun _ _ hc => nomatch hc) (by rfl) (by rfl)
  have h3 := C9_alloc_alignment.2.2
    { sampleState with
      free_list_heads := sampleState.free_list_heads.set 1 [] }
    sampleState ⟨9, 8⟩ 4096 h2.2.1
    (fun i b hi hb => by
      have hi1 : i = 1 := by
        rw [show free_list_index
          ({ sampleState with
            free_list_heads :=
              sampleState.free_list_heads.set 1 [] }
            : FixedSizeBlockAllocator).fallback_allocator.size
          ⟨9, 8⟩ = some 1 from by decide] at hi
        injection hi with hi
        omega
      subst hi1
      injection hb with hb
      subst hb
      decide)
    (by rfl)
  exact ⟨h1, ⟨h2.1, h2.2.1⟩, h3⟩
/-! ## Claim C6: the heap mapper -/

/-- The pages a trace requested frames for, in order. -/
def framePages : List HeapInitEvent → List Nat
  | [] => []
  | .frameReq p :: tr => p :: framePages tr
  | .mapped _ _ _ :: tr => framePages tr
  | .allocInit _ _ :: tr => framePages tr

section InitHeap

variable {σ : Type} (af : σ → Option (Nat × σ))
  (mp : Nat → Nat → Nat → σ → Except MapToError σ)

/-- Loop step: the frame source is exhausted at the current page. -/
theorem loop_cons_noframe {s : σ} {p : Nat} {rest : List Nat}
    (h : af s = none) :
    init_heap_loop af mp (p :: rest) s =
      ([.frameReq p], .error .FrameAllocationFailed) := by
  conv_lhs => rw [init_heap_loop]
  rw [h]

/-- Loop step: the mapper fails at the current page. -/
theorem loop_cons_maperr {s s1 : σ} {p f : Nat} {rest : List Nat}
    {e : MapToError} (hf : af s = some (f, s1))
    (hm : mp p f (FLAG_PRESENT ||| FLAG_WRITABLE) s1 = .error e) :
    init_heap_loop af mp (p :: rest) s = ([.frameReq p], .error e) := by
  conv_lhs => rw [init_heap_loop]
  rw [hf]
  simp only
  rw [hm]

/-- Loop step: the current page maps successfully. -/
theorem loop_cons_ok {s s1 s2 : σ} {p f : Nat} {rest : List Nat}
    (hf : af s = some (f, s1))
    (hm : mp p f (FLAG_PRESENT ||| FLAG_WRITABLE) s1 = .ok s2) :
    init_heap_loop af mp (p :: rest) s =
      (.frameReq p :: .mapped p f (FLAG_PRESENT ||| FLAG_WRITABLE) ::
        (init_heap_loop af mp rest s2).1,
       (init_heap_loop af mp rest s2).2) := by
  conv_lhs => rw [init_heap_loop]
  rw [hf]
  simp only
  rw [hm]

/-- The loop never emits an allocator-initialisation event. -/
theorem loop_no_allocInit (pages : List Nat) (s : σ) (a b : Nat) :
    HeapInitEvent.allocInit a b ∉ (init_heap_loop af mp pages s).1 := by
  induction pages generalizing s with
  | nil => simp [init_heap_loop]
  | cons p rest ih =>
    cases haf : af s with
    | none =>
      rw [loop_cons_noframe af mp haf]
      simp
    | some x =>
      obtain ⟨f, s1⟩ := x
      cases hmp : mp p f (FLAG_PRESENT ||| FLAG_WRITABLE) s1 with
      | error e =>
        rw [loop_cons_maperr af mp haf hmp]
        simp
      | ok s2 =>
        rw [loop_cons_ok af mp haf hmp]
        simp only [List.mem_cons]
        rintro (h | h | h) <;>
          first
            | cases h
            | exact ih s2 h

/-- On success the loop processed every page in order; on failure it
processed exactly the pages up to and including the failing one (a
nonempty prefix) and returned at once. -/
theorem loop_trace_spec (pages : List Nat) (s : σ) :
    (∀ s2, (init_heap_loop af mp pages s).2 = .ok s2 →
      framePages (init_heap_loop af mp pages s).1 = pages) ∧
    (∀ e, (init_heap_loop af mp pages s).2 = .error e →
      ∃ k, k < pages.length ∧
        framePages (init_heap_loop af mp pages s).1 = pages.take (k + 1)) := by
  induction pages generalizing s with
  | nil =>
    constructor
    · intro s2 _
      rfl
    · intro e he
      cases he
  | cons p rest ih =>
    cases haf : af s with
    | none =>
      rw [loop_cons_noframe af mp haf]
      constructor
      · intro s2 h
        cases h
      · intro e he
        refine ⟨0, ?_, ?_⟩
        · simp
        · simp [framePages]
    | some x =>
      obtain ⟨f, s1⟩ := x
      cases hmp : mp p f (FLAG_PRESENT ||| FLAG_WRITABLE) s1 with
      | error e0 =>
        rw [loop_cons_maperr af mp haf hmp]
        constructor
        · intro s2 h
          cases h
        · intro e he
          refine ⟨0, ?_, ?_⟩
          · simp
          · simp [framePages]
      | ok s2 =>
        rw [loop_cons_ok af mp haf hmp]
        obtain ⟨ihok, iherr⟩ := ih s2
        constructor
        · intro s3 h
          simp only at h
          show p :: framePages (init_heap_loop af mp rest s2).1 = p :: rest
          rw [ihok s3 h]
        · intro e he
          simp only at he
          obtain ⟨k, hk, htr⟩ := iherr e he
          refine ⟨k + 1, by simp; omega, ?_⟩
          show p :: framePages (init_heap_loop af mp rest s2).1 = _
          rw [htr]
          rfl

/-- Claim C6: `init_heap` iterates over exactly the pages covering
`[HEAP_START, HEAP_START + HEAP_SIZE)` in ascending order; for each page
it first requests one frame, returning `Err(FrameAllocationFailed)` at
once when the source returns `None`, then installs a `PRESENT | WRITABLE`
mapping, returning the mapper's error at once when mapping fails; on the
first failure no further page is processed, and the global allocator is
initialised (with the heap window) only after every page was mapped
successfully — never on the error path. -/
theorem C6_init_heap :
    heap_region_pages = (List.range (HEAP_SIZE / PAGE_SIZE)).map
      (fun i => HEAP_START + PAGE_SIZE * i) ∧
    HEAP_SIZE / PAGE_SIZE * PAGE_SIZE = HEAP_SIZE ∧
    (∀ {σ : Type} (af : σ → Option (Nat × σ))
      (mp : Nat → Nat → Nat → σ → Except MapToError σ)
      (p : Nat) (rest : List Nat) (s : σ),
      (af s = none → init_heap_loop af mp (p :: rest) s =
        ([.frameReq p], .error .FrameAllocationFailed)) ∧
      (∀ f s1 e, af s = some (f, s1) →
        mp p f (FLAG_PRESENT ||| FLAG_WRITABLE) s1 = .error e →
        init_heap_loop af mp (p :: rest) s = ([.frameReq p], .error e))) ∧
    (∀ {σ : Type} (af : σ → Option (Nat × σ))
      (mp : Nat → Nat → Nat → σ → Except MapToError σ) (s : σ),
      (∀ e, (init_heap_loop af mp heap_region_pages s).2 = .error e →
        ∃ k, k < heap_region_pages.length ∧
          framePages (init_heap_loop af mp heap_region_pages s).1 =
            heap_region_pages.take (k + 1)) ∧
      (∀ s2, (init_heap af mp s).2 = .ok s2 →
        framePages (init_heap_loop af mp heap_region_pages s).1 =
          heap_region_pages ∧
        (init_heap af mp s).1 =
          (init_heap_loop af mp heap_region_pages s).1 ++
            [.allocInit HEAP_START HEAP_SIZE]) ∧
      (∀ e, (init_heap af mp s).2 = .error e →
        ∀ a b, HeapInitEvent.allocInit a b ∉ (init_heap af mp s).1)) := by
  refine ⟨by decide, by decide, ?_, ?_⟩
  · intro σ af mp p rest s
    exact ⟨fun h => loop_cons_noframe af mp h,
      fun f s1 e hf hm => loop_cons_maperr af mp hf hm⟩
  · intro σ af mp s
    refine ⟨(loop_trace_spec af mp heap_region_pages s).2, ?_, ?_⟩
    · intro s2 h
      unfold init_heap at h ⊢
      cases hloop : init_heap_loop af mp heap_region_pages s with
      | mk tr r =>
        rw [hloop] at h
        cases r with
        | ok s3 =>
          simp only at h ⊢
          refine ⟨?_, by trivial⟩
          have h2 := (loop_trace_spec af mp heap_region_pages s).1 s3
            (by rw [hloop])
          rw [hloop] at h2
          exact h2
        | error e =>
          cases h
    · intro e h a b
      unfold init_heap at h ⊢
      cases hloop : init_heap_loop af mp heap_region_pages s with
      | mk tr r =>
        rw [hloop] at h
        cases r with
        | ok s3 =>
          cases h
        | error e2 =>
          simp only at h ⊢
          have h3 := loop_no_allocInit af mp heap_region_pages s a b
          rw [hloop] at h3
          exact h3

end InitHeap

/-- A frame source for the C6 witness: hands out frames 0, 1, 2, … and
never runs out; the state is the next frame number. -/
def afW : Nat → Option (Nat × Nat) := fun n => some (n, n + 1)

/-- A mapper for the C6 witness: fails with `PageAlreadyMapped` on the
second heap page, succeeds elsewhere. -/
def mpW : Nat → Nat → Nat → Nat → Except MapToError Nat :=
  fun p _ _ n =>
    if p = HEAP_START + PAGE_SIZE then .error .PageAlreadyMapped else .ok n

/-- Witness for C6: with a mapper that fails on the second page, the loop
stops after two pages (and `init_heap` emits no allocator-initialisation
event); the per-page step equations hold at the first page; and the page
list is the 25 pages of the heap window. -/
theorem C6_init_heap_witness :
    (∃ k, k < heap_region_pages.length ∧
      framePages (init_heap_loop afW mpW heap_region_pages 0).1 =
        heap_region_pages.take (k + 1)) ∧
    (∀ a b, HeapInitEvent.allocInit a b ∉ (init_heap afW mpW 0).1) ∧
    init_heap_loop (fun (_ : Nat) => none) mpW (HEAP_START :: []) 0 =
      ([.frameReq HEAP_START], .error .FrameAllocationFailed) := by
  refine ⟨?_, ?_, ?_⟩
  · exact (C6_init_heap.2.2.2 afW mpW 0).1 .PageAlreadyMapped (by rfl)
  · exact fun a b =>
      (C6_init_heap.2.2.2 afW mpW 0).2.2 .PageAlreadyMapped (by rfl) a b
  · exact ((C6_init_heap.2.2.1 (fun (_ : Nat) => none) mpW
      HEAP_START [] 0).1) (by rfl)

end Myos

